import Mathlib

/-!
Verification of the 3D object viewer's rendering core.

The development shallowly embeds the Python sources (`Object.py`,
`Projector.py`, `Renderer.py`) in Lean 4:

* Python floats are modelled as exact rationals `ℚ` for the mesh, projector
  and renderer arithmetic (all the operations involved there are `+ - * /`,
  `min`, `max`, `abs`, comparisons, and truncation, which are exact), and as
  reals `ℝ` for the trigonometric rotation and the face-normal length.
* A mesh (`Object` in `Object.py`) is a structure of a vertex list and a
  face list; NumPy row indexing `vertices[v_id]` is embedded as `List.getD`
  (Python raises on an out-of-range index; all claims concern meshes whose
  faces index into the vertex list, where `getD` agrees with the source).
* The GUI drawing engine is embedded as a trace of draw calls: rendering
  returns the object as the renderer leaves it together with the ordered
  list of primitive calls it issued.
* Python `assert` failures and `raise NotImplementedError()` are embedded
  as `Except ProjError` results.
* The NumPy division of the zero vector by its zero norm (`N /= 0.0`)
  produces NaN components; NaN propagation is embedded as `Option.none`.
-/

/-- A 3D point `(x, y, z)`, one row of the `Nx3` vertex matrix. -/
abbrev V3 : Type := ℚ × ℚ × ℚ

/-- A 2D point, one row of the `Nx2` projected matrix. -/
abbrev V2 : Type := ℚ × ℚ

/-- A face: three indices into the vertex list (`Object.faces` entries). -/
abbrev Face : Type := ℕ × ℕ × ℕ

/-- Embeds the `Object` class of `Object.py`: a triangular mesh made of an
`Nx3` vertex matrix (a list of rows) and a list of 3-tuples of indices. -/
@[ext]
structure Obj where
  vertices : List V3
  faces : List Face
deriving DecidableEq

/-- Error kinds raised by the projectors of `Projector.py`: a failed
`assert` statement, or `raise NotImplementedError()`. -/
inductive ProjError
  | assertionFailed
  | notImplemented
deriving DecidableEq

/-- Embeds `OrthographicProjector.project` of `Projector.py` on a raw
matrix modelled as a list of rows: `assert len(vertices.shape) == 2`,
`assert vertices.shape[0] > 0`, `assert vertices.shape[1] == 3`, then
`return vertices[:, :2]` (the first two entries of every row). A list of
rows is a 2-D array of shape `(len, 3)` exactly when it is non-empty with
every row of length 3; an empty array has shape `(0,)` and already fails
the first assertion. -/
def orthoProject (vertices : List (List ℚ)) : Except ProjError (List (List ℚ)) :=
  if 0 < vertices.length ∧ ∀ row ∈ vertices, row.length = 3 then
    .ok (vertices.map (fun row => row.take 2))
  else
    .error .assertionFailed

/-- Embeds `PerspectiveProjector.project` of `Projector.py`: the body is
`raise NotImplementedError()`. -/
def perspectiveProject (vertices : List (List ℚ)) : Except ProjError (List (List ℚ)) :=
  .error .notImplemented

/-- Embeds the `z_avg` accumulation of
`FlatShadedRenderer._sort_obj_faces_by_depth` (`Renderer.py`): starting
from `0`, add the `z` entry of `obj.vertices[v_id]` for the three indices
of the face, then divide by 3. -/
def zAvg (vertices : List V3) (face : Face) : ℚ :=
  (0 + (vertices.getD face.1 (0, 0, 0)).2.2
     + (vertices.getD face.2.1 (0, 0, 0)).2.2
     + (vertices.getD face.2.2 (0, 0, 0)).2.2) / 3

/-- The comparison handed to the sort in
`FlatShadedRenderer._sort_obj_faces_by_depth`: Python's
`sorted(key=lambda x: x[0], reverse=True)` is the stable descending sort
on the first component, i.e. the stable merge sort for the relation
`b.fst ≤ a.fst`. -/
def depthLe (a b : ℚ × Face) : Bool :=
  decide (b.1 ≤ a.1)

/-- Embeds `FlatShadedRenderer._sort_obj_faces_by_depth` (`Renderer.py`):
build the list of `(z_avg, face)` pairs in face order, sort it stably by
descending `z_avg`, and replace the object's face list (there cleared and
refilled in place) with the faces in sorted order. The vertex list is not
touched. -/
def sortObjFacesByDepth (o : Obj) : Obj :=
  let depthFaceLs := o.faces.map (fun face => (zAvg o.vertices face, face))
  let sortedLs := depthFaceLs.mergeSort depthLe
  { o with faces := sortedLs.map (fun p => p.2) }

theorem depthLe_trans (a b c : ℚ × Face) (hab : depthLe a b) (hbc : depthLe b c) :
    depthLe a c := by
  simp only [depthLe, decide_eq_true_eq] at *
  exact le_trans hbc hab

theorem depthLe_total (a b : ℚ × Face) : depthLe a b || depthLe b a := by
  simp only [depthLe, Bool.or_eq_true, decide_eq_true_eq]
  exact le_total b.1 a.1

theorem zAvg_fst_of_mem_depthFace {o : Obj} {p : ℚ × Face}
    (hp : p ∈ o.faces.map (fun face => (zAvg o.vertices face, face))) :
    p.1 = zAvg o.vertices p.2 := by
  obtain ⟨f, _, rfl⟩ := List.mem_map.mp hp
  rfl

theorem filter_map_snd_eq {v : List V3} {q : ℚ} {L : List (ℚ × Face)}
    (hL : ∀ p ∈ L, p.1 = zAvg v p.2) :
    (L.map (fun p => p.2)).filter (fun f => decide (zAvg v f = q))
      = (L.filter (fun p => decide (p.1 = q))).map (fun p => p.2) := by
  rw [List.filter_map]
  refine congrArg _ (List.filter_congr ?_)
  intro p hp
  simp [Function.comp, hL p hp]

/-- C3: the flat-shaded renderer's depth sort reorders the face list so
that the faces' `z_avg` values (mean of the three vertices' Z
coordinates) are in descending order, and faces whose `z_avg` keys are
equal keep their original relative order (the sort is stable). -/
theorem sortObjFacesByDepth_desc_stable (o : Obj) :
    (((sortObjFacesByDepth o).faces.map (zAvg o.vertices)).Pairwise (· ≥ ·)) ∧
    (∀ q : ℚ,
      (sortObjFacesByDepth o).faces.filter (fun f => decide (zAvg o.vertices f = q))
        = o.faces.filter (fun f => decide (zAvg o.vertices f = q))) := by
  constructor
  · have hfaces : (sortObjFacesByDepth o).faces
        = ((o.faces.map (fun face => (zAvg o.vertices face, face))).mergeSort
            depthLe).map (fun p => p.2) := rfl
    rw [hfaces, List.map_map, List.pairwise_map]
    have hs := List.sorted_mergeSort depthLe_trans depthLe_total
      (o.faces.map (fun face => (zAvg o.vertices face, face)))
    refine List.Pairwise.imp_of_mem ?_ hs
    intro a b ha hb hab
    have ha' := zAvg_fst_of_mem_depthFace
      ((List.mergeSort_perm _ depthLe).subset ha)
    have hb' := zAvg_fst_of_mem_depthFace
      ((List.mergeSort_perm _ depthLe).subset hb)
    have hba : b.1 ≤ a.1 := by simpa [depthLe] using hab
    rw [ha', hb'] at hba
    exact hba
  · intro q
    set dls := o.faces.map (fun face => (zAvg o.vertices face, face)) with hdls
    have hperm : (dls.mergeSort depthLe).Perm dls := List.mergeSort_perm dls depthLe
    -- the filtered original pair list is a sorted sublist, hence a sublist
    -- of the merge sort (stability), and a permutation of the filtered
    -- sorted list, hence equal to it
    have hpw : (dls.filter (fun p => decide (p.1 = q))).Pairwise
        (fun a b => depthLe a b = true) := by
      have hall : ∀ p ∈ dls.filter (fun p => decide (p.1 = q)), p.1 = q := by
        intro p hp
        have := List.of_mem_filter hp
        simpa using this
      apply List.pairwise_of_forall_mem_list
      intro a ha b hb
      simp [depthLe, hall a ha, hall b hb]
    have hsub : List.Sublist (dls.filter (fun p => decide (p.1 = q)))
        (dls.mergeSort depthLe) :=
      List.sublist_mergeSort depthLe_trans depthLe_total hpw (List.filter_sublist dls)
    have hsub2 := hsub.filter (fun p => decide (p.1 = q))
    rw [List.filter_filter] at hsub2
    have hsame : List.Sublist (dls.filter (fun p => decide (p.1 = q)))
        ((dls.mergeSort depthLe).filter (fun p => decide (p.1 = q))) := by
      have hbb : (fun a : ℚ × Face => decide (a.1 = q) && decide (a.1 = q))
          = fun a : ℚ × Face => decide (a.1 = q) := by
        funext a; cases decide (a.1 = q) <;> simp
      rwa [hbb] at hsub2
    have hlen : ((dls.mergeSort depthLe).filter (fun p => decide (p.1 = q))).length
        = (dls.filter (fun p => decide (p.1 = q))).length :=
      (hperm.filter _).length_eq
    have hfeq : (dls.mergeSort depthLe).filter (fun p => decide (p.1 = q))
        = dls.filter (fun p => decide (p.1 = q)) :=
      (hsame.eq_of_length hlen.symm).symm
    -- transport the pair-level equality to the face lists
    have hA := filter_map_snd_eq (v := o.vertices) (q := q)
      (L := dls.mergeSort depthLe) (fun p hp => zAvg_fst_of_mem_depthFace (hperm.subset hp))
    have hB := filter_map_snd_eq (v := o.vertices) (q := q) (L := dls)
      (fun p hp => zAvg_fst_of_mem_depthFace hp)
    have hfaces : (sortObjFacesByDepth o).faces
        = (dls.mergeSort depthLe).map (fun p => p.2) := rfl
    have hback : dls.map (fun p => p.2) = o.faces := by
      rw [hdls, List.map_map]; simp [Function.comp_def]
    rw [hfaces, hA, hfeq, ← hB, hback]

/-- C9: the depth sort leaves the vertices unchanged and leaves the face
list a permutation of the original faces: same length, same face triples
with the same multiplicities, only reordered. -/
theorem sortObjFacesByDepth_frame (o : Obj) :
    (sortObjFacesByDepth o).vertices = o.vertices ∧
    (sortObjFacesByDepth o).faces.Perm o.faces ∧
    (sortObjFacesByDepth o).faces.length = o.faces.length ∧
    ∀ f : Face, (sortObjFacesByDepth o).faces.countP (fun g => decide (g = f))
      = o.faces.countP (fun g => decide (g = f)) := by
  have hperm : (sortObjFacesByDepth o).faces.Perm o.faces := by
    have h := (List.mergeSort_perm
      (o.faces.map (fun face => (zAvg o.vertices face, face))) depthLe).map
      (fun p : ℚ × Face => p.2)
    simpa [sortObjFacesByDepth, List.map_map, Function.comp_def] using h
  exact ⟨rfl, hperm, hperm.length_eq, fun f => hperm.countP_eq _⟩

/-- C6: orthographic projection of a non-empty `Nx3` matrix returns the
`Nx2` matrix made of the first two columns exactly; an empty input or a
column count other than 3 fails the precondition assertions. -/
theorem orthoProject_spec :
    (∀ m : List (List ℚ), 0 < m.length → (∀ row ∈ m, row.length = 3) →
      orthoProject m = .ok (m.map (fun row => row.take 2)) ∧
      (m.map (fun row => row.take 2)).length = m.length ∧
      ∀ row ∈ m, row.take 2 = [row.getD 0 0, row.getD 1 0] ∧ (row.take 2).length = 2) ∧
    (orthoProject ([] : List (List ℚ)) = .error .assertionFailed) ∧
    (∀ m : List (List ℚ), (∃ row ∈ m, row.length ≠ 3) →
      orthoProject m = .error .assertionFailed) := by
  refine ⟨?_, ?_, ?_⟩
  · intro m hlen hcols
    refine ⟨?_, by simp, ?_⟩
    · rw [orthoProject, if_pos ⟨hlen, hcols⟩]
    · intro row hrow
      have h3 := hcols row hrow
      match row, h3 with
      | [a, b, c], _ => simp
  · rfl
  · intro m ⟨row, hrow, hne⟩
    rw [orthoProject, if_neg]
    rintro ⟨-, hall⟩
    exact hne (hall row hrow)

/-- Witness for C6 at concrete inputs: a single row `[1, 2, 3]` projects
to `[1, 2]`, and a `2`-column input fails the assertion. -/
theorem orthoProject_spec_witness :
    orthoProject [[(1 : ℚ), 2, 3]] = .ok [[1, 2]] ∧
    orthoProject [[(1 : ℚ), 2]] = .error .assertionFailed := by
  constructor
  · have h := (orthoProject_spec.1 [[(1 : ℚ), 2, 3]] (by decide)
      (by intro row hrow; simp at hrow; rw [hrow]; rfl)).1
    simpa using h
  · exact orthoProject_spec.2.2 [[(1 : ℚ), 2]] ⟨[(1 : ℚ), 2], by simp, by decide⟩

/-- C8: perspective projection always fails with the not-implemented
error kind and never returns a projected matrix. -/
theorem perspectiveProject_spec :
    ∀ m : List (List ℚ), perspectiveProject m = .error .notImplemented ∧
      ∀ r : List (List ℚ), perspectiveProject m ≠ .ok r := by
  intro m
  exact ⟨rfl, fun r h => by simp [perspectiveProject] at h⟩

/-- Value of one hexadecimal digit, as accepted by Python's `int(s, 16)`
(case-insensitive); a non-digit raises `ValueError`, embedded as `none`. -/
def hexDigitVal (c : Char) : Option ℕ :=
  if '0' ≤ c ∧ c ≤ '9' then some (c.toNat - 48)
  else if 'a' ≤ c ∧ c ≤ 'f' then some (c.toNat - 87)
  else if 'A' ≤ c ∧ c ≤ 'F' then some (c.toNat - 55)
  else none

/-- Embeds Python's `int(s, 16)` on a slice of hex digits: the empty
slice and any non-digit raise `ValueError` (`none`). -/
def parseHexDigits : List Char → Option ℕ
  | [] => none
  | ls => ls.foldl
      (fun acc c =>
        match acc, hexDigitVal c with
        | some a, some d => some (16 * a + d)
        | _, _ => none)
      (some 0)

/-- The sixteen lowercase hexadecimal digit characters, in value order. -/
def hexDigitChars : List Char :=
  ['0', '1', '2', '3', '4', '5', '6', '7']
    ++ ['8', '9', 'a', 'b', 'c', 'd', 'e', 'f']

/-- The lowercase hexadecimal digit of a value below 16. -/
def toHexDigit (n : ℕ) : Char :=
  hexDigitChars.getD n '0'

/-- Embeds Python's `'{:02x}'.format(n)` for `0 ≤ n < 256`, the only
range the claims reach (outside it Python prints more characters or a
sign, which no claim exercises). -/
def format02x (n : ℤ) : List Char :=
  [toHexDigit (n.toNat / 16 % 16), toHexDigit (n.toNat % 16)]

/-- Embeds Python's `int(x)` on a float: truncation toward zero, computed
on the reduced fraction. -/
def pyInt (q : ℚ) : ℤ :=
  q.num.tdiv q.den

/-- Embeds the `hex2rgb` lambda of `FlatShadedRenderer._color_fader`
(`Renderer.py`): strip all leading `#`, then parse the character pairs at
offsets 0, 2 and 4 with `int(_, 16)`. -/
def hex2rgb (s : List Char) : Option (ℕ × ℕ × ℕ) :=
  let t := s.dropWhile (fun c => decide (c = '#'))
  match parseHexDigits (t.take 2), parseHexDigits ((t.drop 2).take 2),
      parseHexDigits ((t.drop 4).take 2) with
  | some r, some g, some b => some (r, g, b)
  | _, _, _ => none

/-- One interpolated channel as `_color_fader` computes it: the exact
value `c1 * alpha + c2 * (1 - alpha)` passed through `int(x)`
(truncation), with no clamping. -/
def fadeChannel (c1 c2 : ℕ) (alpha : ℚ) : ℤ :=
  pyInt ((c1 : ℚ) * alpha + (c2 : ℚ) * (1 - alpha))

/-- Embeds `FlatShadedRenderer._color_fader` (`Renderer.py`): decode both
hex colors, combine the channels as `c1_rgb * alpha + c2_rgb * (1 - alpha)`,
convert each channel with `int(x)` and re-encode as `'#{:02x}{:02x}{:02x}'`. -/
def colorFader (color1 color2 : List Char) (alpha : ℚ) : Option (List Char) :=
  match hex2rgb color1, hex2rgb color2 with
  | some (r1, g1, b1), some (r2, g2, b2) =>
    some ('#' :: (format02x (fadeChannel r1 r2 alpha)
        ++ format02x (fadeChannel g1 g2 alpha)
        ++ format02x (fadeChannel b1 b2 alpha)))
  | _, _ => none

/-- The color interpolation exactly as the spec words it, for comparison
with `colorFader`: each channel is `round(bright * alpha + dark * (1 - alpha))`
clamped to `[0, 255]`, re-encoded as a hex color string. -/
def colorFaderSpec (color1 color2 : List Char) (alpha : ℚ) : Option (List Char) :=
  match hex2rgb color1, hex2rgb color2 with
  | some (r1, g1, b1), some (r2, g2, b2) =>
    let ch : ℕ → ℕ → ℤ := fun c1 c2 =>
      min 255 (max 0 (round ((c1 : ℚ) * alpha + (c2 : ℚ) * (1 - alpha))))
    some ('#' :: (format02x (ch r1 r2) ++ format02x (ch g1 g2) ++ format02x (ch b1 b2)))
  | _, _ => none

/-- A color the fader outputs: `#` followed by six lowercase hex digits. -/
def isLowerHexDigit (c : Char) : Bool :=
  hexDigitChars.contains c

/-- Recognizes `#` followed by exactly six lowercase hexadecimal digits. -/
def isValidLowerHexColor (s : List Char) : Bool :=
  match s with
  | c :: rest => c == '#' && rest.length == 6 && rest.all isLowerHexDigit
  | [] => false

theorem lowerHexDigit_spec (c : Char) (h : isLowerHexDigit c = true) :
    (hexDigitVal c).isSome = true ∧ (hexDigitVal c).getD 0 < 16 ∧
      toHexDigit ((hexDigitVal c).getD 0) = c ∧ c ≠ '#' := by
  have h' : c ∈ hexDigitChars := by
    simpa [isLowerHexDigit, List.contains] using h
  simp only [hexDigitChars, List.cons_append, List.nil_append, List.mem_cons,
    List.not_mem_nil, or_false] at h'
  rcases h' with rfl | rfl | rfl | rfl | rfl | rfl | rfl | rfl | rfl | rfl | rfl |
    rfl | rfl | rfl | rfl | rfl <;> decide

theorem toHexDigit_lower {v : ℕ} (h : v < 16) :
    isLowerHexDigit (toHexDigit v) = true ∧ hexDigitVal (toHexDigit v) = some v := by
  interval_cases v <;> exact ⟨by decide, by decide⟩

theorem parseHexDigits_pair {a b : Char} {va vb : ℕ}
    (ha : hexDigitVal a = some va) (hb : hexDigitVal b = some vb) :
    parseHexDigits [a, b] = some (16 * va + vb) := by
  simp [parseHexDigits, ha, hb]

theorem format02x_digits {va vb : ℕ} (ha : va < 16) (hb : vb < 16) :
    format02x ((16 * va + vb : ℕ) : ℤ) = [toHexDigit va, toHexDigit vb] := by
  have h0 : ((16 * va + vb : ℕ) : ℤ).toNat = 16 * va + vb := by omega
  simp only [format02x, h0]
  have h1 : (16 * va + vb) / 16 % 16 = va := by omega
  have h2 : (16 * va + vb) % 16 = vb := by omega
  rw [h1, h2]

theorem lowerHexDigit_exists (c : Char) (h : isLowerHexDigit c = true) :
    ∃ v, hexDigitVal c = some v ∧ v < 16 ∧ toHexDigit v = c ∧ c ≠ '#' := by
  obtain ⟨hs, hlt, ht, hne⟩ := lowerHexDigit_spec c h
  obtain ⟨v, hv⟩ := Option.isSome_iff_exists.mp hs
  refine ⟨v, hv, ?_, ?_, hne⟩
  · simpa [hv] using hlt
  · simpa [hv] using ht

theorem pyInt_natCast (v : ℕ) : pyInt ((v : ℚ)) = (v : ℤ) := by
  simp [pyInt]

theorem pyInt_eq_floor {q : ℚ} (h : 0 ≤ q) : pyInt q = Int.floor q := by
  rw [pyInt, Int.tdiv_eq_ediv (by exact_mod_cast Rat.num_nonneg.mpr h)
    (Int.natCast_nonneg _), Rat.floor_def]

theorem fadeChannel_self (v : ℕ) (alpha : ℚ) : fadeChannel v v alpha = (v : ℤ) := by
  have hcomb : (v : ℚ) * alpha + (v : ℚ) * (1 - alpha) = (v : ℚ) := by ring
  rw [fadeChannel, hcomb, pyInt_natCast]

theorem fadeChannel_one (a b : ℕ) : fadeChannel a b 1 = (a : ℤ) := by
  have hcomb : (a : ℚ) * 1 + (b : ℚ) * (1 - 1) = (a : ℚ) := by ring
  rw [fadeChannel, hcomb, pyInt_natCast]

theorem fadeChannel_zero (a b : ℕ) : fadeChannel a b 0 = (b : ℤ) := by
  have hcomb : (a : ℚ) * 0 + (b : ℚ) * (1 - 0) = (b : ℚ) := by ring
  rw [fadeChannel, hcomb, pyInt_natCast]

theorem fadeChannel_mem {a b : ℕ} (ha : a < 256) (hb : b < 256) {alpha : ℚ}
    (h0 : 0 ≤ alpha) (h1 : alpha ≤ 1) :
    0 ≤ fadeChannel a b alpha ∧ fadeChannel a b alpha ≤ 255 := by
  have haq : (a : ℚ) ≤ 255 := by exact_mod_cast Nat.lt_succ_iff.mp ha
  have hbq : (b : ℚ) ≤ 255 := by exact_mod_cast Nat.lt_succ_iff.mp hb
  have hq0 : 0 ≤ (a : ℚ) * alpha + (b : ℚ) * (1 - alpha) :=
    add_nonneg (mul_nonneg (by positivity) h0) (mul_nonneg (by positivity) (by linarith))
  have hq1 : (a : ℚ) * alpha + (b : ℚ) * (1 - alpha) ≤ 255 := by
    calc (a : ℚ) * alpha + (b : ℚ) * (1 - alpha)
        ≤ 255 * alpha + 255 * (1 - alpha) :=
          add_le_add (mul_le_mul_of_nonneg_right haq h0)
            (mul_le_mul_of_nonneg_right hbq (by linarith))
      _ = 255 := by ring
  rw [fadeChannel, pyInt_eq_floor hq0]
  refine ⟨Int.floor_nonneg.mpr hq0, ?_⟩
  have hle := Int.floor_le_floor (α := ℚ) hq1
  simpa using hle

theorem format02x_valid {n : ℤ} (h0 : 0 ≤ n) (h1 : n ≤ 255) :
    ∃ c1 c2, format02x n = [c1, c2] ∧ isLowerHexDigit c1 = true ∧
      isLowerHexDigit c2 = true ∧ parseHexDigits [c1, c2] = some n.toNat := by
  have hv1 : n.toNat / 16 % 16 < 16 := by omega
  have hv2 : n.toNat % 16 < 16 := by omega
  obtain ⟨hl1, hp1⟩ := toHexDigit_lower hv1
  obtain ⟨hl2, hp2⟩ := toHexDigit_lower hv2
  refine ⟨_, _, rfl, hl1, hl2, ?_⟩
  rw [parseHexDigits_pair hp1 hp2]
  congr 1
  omega

theorem hex2rgb_valid {s : List Char} (h : isValidLowerHexColor s = true) :
    ∃ r g b : ℕ, hex2rgb s = some (r, g, b) ∧ r < 256 ∧ g < 256 ∧ b < 256 ∧
      s = '#' :: (format02x (r : ℤ) ++ format02x (g : ℤ) ++ format02x (b : ℤ)) := by
  rcases s with _ | ⟨c0, rest⟩
  · simp [isValidLowerHexColor] at h
  · simp only [isValidLowerHexColor, Bool.and_eq_true, beq_iff_eq,
      List.all_eq_true] at h
    obtain ⟨⟨hc, hlen⟩, hall⟩ := h
    subst hc
    match rest, hlen with
    | [d1, d2, d3, d4, d5, d6], _ =>
      obtain ⟨v1, hv1, hl1, ht1, hne1⟩ := lowerHexDigit_exists d1 (hall d1 (by simp))
      obtain ⟨v2, hv2, hl2, ht2, hne2⟩ := lowerHexDigit_exists d2 (hall d2 (by simp))
      obtain ⟨v3, hv3, hl3, ht3, hne3⟩ := lowerHexDigit_exists d3 (hall d3 (by simp))
      obtain ⟨v4, hv4, hl4, ht4, hne4⟩ := lowerHexDigit_exists d4 (hall d4 (by simp))
      obtain ⟨v5, hv5, hl5, ht5, hne5⟩ := lowerHexDigit_exists d5 (hall d5 (by simp))
      obtain ⟨v6, hv6, hl6, ht6, hne6⟩ := lowerHexDigit_exists d6 (hall d6 (by simp))
      have hdrop : (['#', d1, d2, d3, d4, d5, d6] : List Char).dropWhile
          (fun c => decide (c = '#')) = [d1, d2, d3, d4, d5, d6] := by
        simp [List.dropWhile, hne1]
      refine ⟨16 * v1 + v2, 16 * v3 + v4, 16 * v5 + v6, ?_, by omega, by omega, by omega, ?_⟩
      · simp only [hex2rgb, hdrop]
        rw [show ([d1, d2, d3, d4, d5, d6] : List Char).take 2 = [d1, d2] from rfl,
          show (([d1, d2, d3, d4, d5, d6] : List Char).drop 2).take 2 = [d3, d4] from rfl,
          show (([d1, d2, d3, d4, d5, d6] : List Char).drop 4).take 2 = [d5, d6] from rfl,
          parseHexDigits_pair hv1 hv2, parseHexDigits_pair hv3 hv4,
          parseHexDigits_pair hv5 hv6]
      · rw [format02x_digits hl1 hl2, format02x_digits hl3 hl4, format02x_digits hl5 hl6,
          ht1, ht2, ht3, ht4, ht5, ht6]
        rfl

unseal Rat.mul Rat.inv Rat.add Rat.sub in
/-- C2 counterexample: the claim says each channel is
`round(bright * alpha + dark * (1 - alpha))` clamped to `[0, 255]` and that
`fade(c, c, alpha) = c` for every valid hex color. At
`bright = "#ff0000"`, `dark = "#000000"`, `alpha = 1/2` the code truncates
`127.5` to `127` (`"#7f0000"`) where the spec formula rounds to `128`
(`"#800000"`); and at the valid uppercase color `"#0000FF"` the code
returns the lowercase `"#0000ff"`, not the input. -/
theorem colorFader_counterexample :
    colorFader ['#', 'f', 'f', '0', '0', '0', '0'] ['#', '0', '0', '0', '0', '0', '0'] (1 / 2)
      = some ['#', '7', 'f', '0', '0', '0', '0'] ∧
    colorFaderSpec ['#', 'f', 'f', '0', '0', '0', '0'] ['#', '0', '0', '0', '0', '0', '0'] (1 / 2)
      = some ['#', '8', '0', '0', '0', '0', '0'] ∧
    colorFader ['#', 'f', 'f', '0', '0', '0', '0'] ['#', '0', '0', '0', '0', '0', '0'] (1 / 2)
      ≠ colorFaderSpec ['#', 'f', 'f', '0', '0', '0', '0'] ['#', '0', '0', '0', '0', '0', '0'] (1 / 2) ∧
    colorFader ['#', '0', '0', '0', '0', 'F', 'F'] ['#', '0', '0', '0', '0', 'F', 'F'] (1 / 2)
      = some ['#', '0', '0', '0', '0', 'f', 'f'] := by
  exact ⟨by decide, by decide, by decide, by decide⟩

/-- C2 (amended): the color fader computes each RGB channel as the
`int()`-truncation of `bright * alpha + dark * (1 - alpha)` with no
explicit clamping and re-encodes in lowercase hex; consequently for all
valid lowercase hex colors `A`, `B`, `c` and every `alpha ∈ [0, 1]`,
`fade(c, c, alpha) = c`, `fade(A, B, 1) = A`, `fade(A, B, 0) = B`, and the
output is again a hex color whose channels all lie in `[0, 255]`. -/
theorem colorFader_amended (A B c : List Char) (hA : isValidLowerHexColor A = true)
    (hB : isValidLowerHexColor B = true) (hc : isValidLowerHexColor c = true)
    (alpha : ℚ) (h0 : 0 ≤ alpha) (h1 : alpha ≤ 1) :
    colorFader c c alpha = some c ∧
    colorFader A B 1 = some A ∧
    colorFader A B 0 = some B ∧
    ∃ out : List Char, colorFader A B alpha = some out ∧
      isValidLowerHexColor out = true ∧
      ∃ r g b : ℕ, hex2rgb out = some (r, g, b) ∧ r ≤ 255 ∧ g ≤ 255 ∧ b ≤ 255 := by
  obtain ⟨ra, ga, ba, hrgbA, hra, hga, hba, hsA⟩ := hex2rgb_valid hA
  obtain ⟨rb, gb, bb, hrgbB, hrb, hgb, hbb, hsB⟩ := hex2rgb_valid hB
  obtain ⟨rc, gc, bc, hrgbC, hrc, hgc, hbc, hsC⟩ := hex2rgb_valid hc
  refine ⟨?_, ?_, ?_, ?_⟩
  · simp only [colorFader, hrgbC, fadeChannel_self]
    conv_rhs => rw [hsC]
  · simp only [colorFader, hrgbA, hrgbB, fadeChannel_one]
    conv_rhs => rw [hsA]
  · simp only [colorFader, hrgbA, hrgbB, fadeChannel_zero]
    conv_rhs => rw [hsB]
  · have hm1 := fadeChannel_mem hra hrb h0 h1
    have hm2 := fadeChannel_mem hga hgb h0 h1
    have hm3 := fadeChannel_mem hba hbb h0 h1
    obtain ⟨x1, x2, hf1, hlx1, hlx2, hp1⟩ := format02x_valid hm1.1 hm1.2
    obtain ⟨y1, y2, hf2, hly1, hly2, hp2⟩ := format02x_valid hm2.1 hm2.2
    obtain ⟨z1, z2, hf3, hlz1, hlz2, hp3⟩ := format02x_valid hm3.1 hm3.2
    refine ⟨'#' :: (format02x (fadeChannel ra rb alpha)
        ++ format02x (fadeChannel ga gb alpha)
        ++ format02x (fadeChannel ba bb alpha)), ?_, ?_, ?_⟩
    · simp only [colorFader, hrgbA, hrgbB]
    · rw [hf1, hf2, hf3]
      simp [isValidLowerHexColor, hlx1, hlx2, hly1, hly2, hlz1, hlz2]
    · refine ⟨(fadeChannel ra rb alpha).toNat, (fadeChannel ga gb alpha).toNat,
        (fadeChannel ba bb alpha).toNat, ?_, ?_, ?_, ?_⟩
      · rw [hf1, hf2, hf3]
        have hne1 : x1 ≠ '#' := (lowerHexDigit_spec x1 hlx1).2.2.2
        have hdrop : (['#', x1, x2, y1, y2, z1, z2] : List Char).dropWhile
            (fun ch => decide (ch = '#')) = [x1, x2, y1, y2, z1, z2] := by
          simp [List.dropWhile, hne1]
        show hex2rgb ('#' :: ([x1, x2] ++ [y1, y2] ++ [z1, z2])) = _
        simp only [hex2rgb, List.cons_append, List.nil_append, hdrop]
        rw [show ([x1, x2, y1, y2, z1, z2] : List Char).take 2 = [x1, x2] from rfl,
          show (([x1, x2, y1, y2, z1, z2] : List Char).drop 2).take 2 = [y1, y2] from rfl,
          show (([x1, x2, y1, y2, z1, z2] : List Char).drop 4).take 2 = [z1, z2] from rfl,
          hp1, hp2, hp3]
      · have := hm1.1
        have := hm1.2
        omega
      · have := hm2.1
        have := hm2.2
        omega
      · have := hm3.1
        have := hm3.2
        omega

unseal Rat.mul Rat.inv Rat.add Rat.sub in
/-- Witness for C2's amended theorem at concrete inputs. -/
theorem colorFader_amended_witness :
    colorFader ['#', '1', '2', '3', 'a', 'b', 'c'] ['#', '1', '2', '3', 'a', 'b', 'c'] (1 / 2)
      = some ['#', '1', '2', '3', 'a', 'b', 'c'] ∧
    colorFader ['#', 'f', 'f', '0', '0', '0', '0'] ['#', '0', '0', 'f', 'f', '0', '0'] 1
      = some ['#', 'f', 'f', '0', '0', '0', '0'] ∧
    colorFader ['#', 'f', 'f', '0', '0', '0', '0'] ['#', '0', '0', 'f', 'f', '0', '0'] 0
      = some ['#', '0', '0', 'f', 'f', '0', '0'] := by
  have h1 := colorFader_amended ['#', 'f', 'f', '0', '0', '0', '0']
    ['#', '0', '0', 'f', 'f', '0', '0'] ['#', '1', '2', '3', 'a', 'b', 'c']
    (by decide) (by decide) (by decide) (1 / 2) (by norm_num) (by norm_num)
  have h2 := colorFader_amended ['#', 'f', 'f', '0', '0', '0', '0']
    ['#', '0', '0', 'f', 'f', '0', '0'] ['#', '1', '2', '3', 'a', 'b', 'c']
    (by decide) (by decide) (by decide) 1 (by norm_num) (by norm_num)
  have h3 := colorFader_amended ['#', 'f', 'f', '0', '0', '0', '0']
    ['#', '0', '0', 'f', 'f', '0', '0'] ['#', '1', '2', '3', 'a', 'b', 'c']
    (by decide) (by decide) (by decide) 0 (by norm_num) (by norm_num)
  exact ⟨h1.1, h2.2.1, h3.2.2.1⟩

/-- Componentwise addition of two vertex rows. -/
def vadd (a b : V3) : V3 :=
  (a.1 + b.1, a.2.1 + b.2.1, a.2.2 + b.2.2)

/-- Componentwise subtraction, one row of `self.vertices -= centroid`. -/
def vsub (a b : V3) : V3 :=
  (a.1 - b.1, a.2.1 - b.2.1, a.2.2 - b.2.2)

/-- One row of the uniform scaling `self.vertices /= scale`. -/
def vdivs (a : V3) (s : ℚ) : V3 :=
  (a.1 / s, a.2.1 / s, a.2.2 / s)

/-- Componentwise max of two rows, the fold step of `np.max(..., axis=0)`. -/
def vmax (a b : V3) : V3 :=
  (max a.1 b.1, max a.2.1 b.2.1, max a.2.2 b.2.2)

/-- Componentwise min of two rows, the fold step of `np.min(..., axis=0)`. -/
def vmin (a b : V3) : V3 :=
  (min a.1 b.1, min a.2.1 b.2.1, min a.2.2 b.2.2)

/-- Embeds `np.max(self.vertices, axis=0)` (`Object.normalize`); NumPy
raises on an empty array, and every claim about `normalize` concerns a
non-empty mesh, so the empty case carries a junk value. -/
def compMax : List V3 → V3
  | [] => (0, 0, 0)
  | x :: xs => xs.foldl vmax x

/-- Embeds `np.min(self.vertices, axis=0)` (`Object.normalize`). -/
def compMin : List V3 → V3
  | [] => (0, 0, 0)
  | x :: xs => xs.foldl vmin x

/-- The largest absolute value of a row's three entries. -/
def vertAbsMax (a : V3) : ℚ :=
  max |a.1| (max |a.2.1| |a.2.2|)

/-- Embeds `np.max(np.abs(self.vertices))` (`Object.normalize`): the
largest absolute value over all matrix entries. -/
def maxAbs : List V3 → ℚ
  | [] => 0
  | x :: xs => xs.foldl (fun acc v => max acc (vertAbsMax v)) (vertAbsMax x)

/-- Embeds `Object.normalize` (`Object.py`): compute the componentwise
max and min, translate by the bounding-box centroid `(mx + mn) / 2`, then
divide by `scale = np.max(np.abs(vertices))` unless `scale` is zero. -/
def Obj.normalize (o : Obj) : Obj :=
  let mx := compMax o.vertices
  let mn := compMin o.vertices
  let centroid := vdivs (vadd mx mn) 2
  let centered := o.vertices.map (fun v => vsub v centroid)
  let scale := maxAbs centered
  if 0 < scale then { o with vertices := centered.map (fun v => vdivs v scale) }
  else { o with vertices := centered }

theorem vmax_sub (a b c : V3) : vmax (vsub a c) (vsub b c) = vsub (vmax a b) c := by
  simp [vmax, vsub, max_sub_sub_right]

theorem vmin_sub (a b c : V3) : vmin (vsub a c) (vsub b c) = vsub (vmin a b) c := by
  simp [vmin, vsub, min_sub_sub_right]

theorem vmax_div {s : ℚ} (hs : 0 ≤ s) (a b : V3) :
    vmax (vdivs a s) (vdivs b s) = vdivs (vmax a b) s := by
  simp [vmax, vdivs, max_div_div_right hs]

theorem vmin_div {s : ℚ} (hs : 0 ≤ s) (a b : V3) :
    vmin (vdivs a s) (vdivs b s) = vdivs (vmin a b) s := by
  simp [vmin, vdivs, min_div_div_right hs]

theorem vsub_zero (w : V3) : vsub w (0, 0, 0) = w := by
  obtain ⟨x, y, z⟩ := w
  simp [vsub]

theorem vdivs_one (w : V3) : vdivs w 1 = w := by
  obtain ⟨x, y, z⟩ := w
  simp [vdivs]

theorem foldl_vmax_sub (xs : List V3) (a c : V3) :
    (xs.map (fun v => vsub v c)).foldl vmax (vsub a c) = vsub (xs.foldl vmax a) c := by
  induction xs generalizing a with
  | nil => rfl
  | cons x xs ih =>
    simp only [List.map_cons, List.foldl_cons, vmax_sub]
    exact ih (vmax a x)

theorem foldl_vmin_sub (xs : List V3) (a c : V3) :
    (xs.map (fun v => vsub v c)).foldl vmin (vsub a c) = vsub (xs.foldl vmin a) c := by
  induction xs generalizing a with
  | nil => rfl
  | cons x xs ih =>
    simp only [List.map_cons, List.foldl_cons, vmin_sub]
    exact ih (vmin a x)

theorem foldl_vmax_div (xs : List V3) (a : V3) {s : ℚ} (hs : 0 ≤ s) :
    (xs.map (fun v => vdivs v s)).foldl vmax (vdivs a s) = vdivs (xs.foldl vmax a) s := by
  induction xs generalizing a with
  | nil => rfl
  | cons x xs ih =>
    simp only [List.map_cons, List.foldl_cons, vmax_div hs]
    exact ih (vmax a x)

theorem foldl_vmin_div (xs : List V3) (a : V3) {s : ℚ} (hs : 0 ≤ s) :
    (xs.map (fun v => vdivs v s)).foldl vmin (vdivs a s) = vdivs (xs.foldl vmin a) s := by
  induction xs generalizing a with
  | nil => rfl
  | cons x xs ih =>
    simp only [List.map_cons, List.foldl_cons, vmin_div hs]
    exact ih (vmin a x)

theorem compMax_map_sub {l : List V3} (h : l ≠ []) (c : V3) :
    compMax (l.map (fun v => vsub v c)) = vsub (compMax l) c := by
  cases l with
  | nil => exact absurd rfl h
  | cons x xs => exact foldl_vmax_sub xs x c

theorem compMin_map_sub {l : List V3} (h : l ≠ []) (c : V3) :
    compMin (l.map (fun v => vsub v c)) = vsub (compMin l) c := by
  cases l with
  | nil => exact absurd rfl h
  | cons x xs => exact foldl_vmin_sub xs x c

theorem compMax_map_div {l : List V3} (h : l ≠ []) {s : ℚ} (hs : 0 ≤ s) :
    compMax (l.map (fun v => vdivs v s)) = vdivs (compMax l) s := by
  cases l with
  | nil => exact absurd rfl h
  | cons x xs => exact foldl_vmax_div xs x hs

theorem compMin_map_div {l : List V3} (h : l ≠ []) {s : ℚ} (hs : 0 ≤ s) :
    compMin (l.map (fun v => vdivs v s)) = vdivs (compMin l) s := by
  cases l with
  | nil => exact absurd rfl h
  | cons x xs => exact foldl_vmin_div xs x hs

theorem foldl_vabs_ge_init (xs : List V3) (a : ℚ) :
    a ≤ xs.foldl (fun acc v => max acc (vertAbsMax v)) a := by
  induction xs generalizing a with
  | nil => exact le_refl a
  | cons x xs ih => exact le_trans (le_max_left _ _) (ih _)

theorem foldl_vabs_ge_mem {xs : List V3} {v : V3} (hv : v ∈ xs) (a : ℚ) :
    vertAbsMax v ≤ xs.foldl (fun acc w => max acc (vertAbsMax w)) a := by
  induction xs generalizing a with
  | nil => cases hv
  | cons x xs ih =>
    rcases List.mem_cons.mp hv with rfl | h
    · exact le_trans (le_max_right _ _) (foldl_vabs_ge_init xs _)
    · exact ih h _

theorem mem_le_maxAbs {l : List V3} {v : V3} (hv : v ∈ l) : vertAbsMax v ≤ maxAbs l := by
  cases l with
  | nil => cases hv
  | cons x xs =>
    rcases List.mem_cons.mp hv with rfl | h
    · exact foldl_vabs_ge_init xs _
    · exact foldl_vabs_ge_mem h _

theorem vertAbsMax_pos {v : V3} (h : v ≠ ((0, 0, 0) : V3)) : 0 < vertAbsMax v := by
  obtain ⟨x, y, z⟩ := v
  have hne : x ≠ 0 ∨ y ≠ 0 ∨ z ≠ 0 := by
    by_contra hc
    push_neg at hc
    exact h (by simp [hc.1, hc.2.1, hc.2.2])
  simp only [vertAbsMax]
  rcases hne with hx | hy | hz
  · exact lt_of_lt_of_le (abs_pos.mpr hx) (le_max_left _ _)
  · exact lt_of_lt_of_le (abs_pos.mpr hy) (le_trans (le_max_left _ _) (le_max_right _ _))
  · exact lt_of_lt_of_le (abs_pos.mpr hz) (le_trans (le_max_right _ _) (le_max_right _ _))

theorem vertAbsMax_div {s : ℚ} (hs : 0 < s) (v : V3) :
    vertAbsMax (vdivs v s) = vertAbsMax v / s := by
  obtain ⟨x, y, z⟩ := v
  simp only [vertAbsMax, vdivs, abs_div, abs_of_pos hs,
    max_div_div_right (le_of_lt hs)]

theorem foldl_vabs_div (xs : List V3) (a : ℚ) {s : ℚ} (hs : 0 < s) :
    (xs.map (fun v => vdivs v s)).foldl (fun acc w => max acc (vertAbsMax w)) (a / s)
      = (xs.foldl (fun acc w => max acc (vertAbsMax w)) a) / s := by
  induction xs generalizing a with
  | nil => rfl
  | cons x xs ih =>
    simp only [List.map_cons, List.foldl_cons, vertAbsMax_div hs,
      max_div_div_right (le_of_lt hs)]
    exact ih _

theorem maxAbs_map_div {l : List V3} {s : ℚ} (hs : 0 < s) :
    maxAbs (l.map (fun v => vdivs v s)) = maxAbs l / s := by
  cases l with
  | nil => simp [maxAbs]
  | cons x xs =>
    simp only [maxAbs, List.map_cons]
    rw [vertAbsMax_div hs]
    exact foldl_vabs_div xs _ hs

theorem maxAbs_centered_pos {l : List V3} {u v : V3} (hu : u ∈ l) (hv : v ∈ l)
    (huv : u ≠ v) (c : V3) : 0 < maxAbs (l.map (fun w => vsub w c)) := by
  have hne : vsub u c ≠ ((0, 0, 0) : V3) ∨ vsub v c ≠ ((0, 0, 0) : V3) := by
    by_contra hcon
    push_neg at hcon
    obtain ⟨h1, h2⟩ := hcon
    apply huv
    obtain ⟨ux, uy, uz⟩ := u
    obtain ⟨vx, vy, vz⟩ := v
    obtain ⟨cx, cy, cz⟩ := c
    simp only [vsub, Prod.mk.injEq] at h1 h2
    refine Prod.ext ?_ (Prod.ext ?_ ?_) <;> simp only
    · linarith [h1.1, h2.1]
    · linarith [h1.2.1, h2.2.1]
    · linarith [h1.2.2, h2.2.2]
  rcases hne with h | h
  · exact lt_of_lt_of_le (vertAbsMax_pos h) (mem_le_maxAbs (List.mem_map_of_mem _ hu))
  · exact lt_of_lt_of_le (vertAbsMax_pos h) (mem_le_maxAbs (List.mem_map_of_mem _ hv))

theorem vmax_self (a : V3) : vmax a a = a := by
  obtain ⟨x, y, z⟩ := a
  simp [vmax]

theorem vmin_self (a : V3) : vmin a a = a := by
  obtain ⟨x, y, z⟩ := a
  simp [vmin]

theorem foldl_vmax_const {x : V3} {xs : List V3} (h : ∀ y ∈ xs, y = x) :
    xs.foldl vmax x = x := by
  induction xs with
  | nil => rfl
  | cons y ys ih =>
    rw [List.foldl_cons, h y (by simp), vmax_self]
    exact ih (fun z hz => h z (by simp [hz]))

theorem foldl_vmin_const {x : V3} {xs : List V3} (h : ∀ y ∈ xs, y = x) :
    xs.foldl vmin x = x := by
  induction xs with
  | nil => rfl
  | cons y ys ih =>
    rw [List.foldl_cons, h y (by simp), vmin_self]
    exact ih (fun z hz => h z (by simp [hz]))

theorem foldl_vabs_zero {xs : List V3} (h : ∀ y ∈ xs, y = ((0, 0, 0) : V3)) :
    xs.foldl (fun acc w => max acc (vertAbsMax w)) 0 = 0 := by
  induction xs with
  | nil => rfl
  | cons y ys ih =>
    have hy : vertAbsMax y = 0 := by rw [h y (by simp)]; simp [vertAbsMax]
    rw [List.foldl_cons, hy, max_self]
    exact ih (fun z hz => h z (by simp [hz]))

theorem maxAbs_const_zero {l : List V3} (h : ∀ y ∈ l, y = ((0, 0, 0) : V3)) :
    maxAbs l = 0 := by
  cases l with
  | nil => rfl
  | cons x xs =>
    have hz : vertAbsMax x = 0 := by rw [h x (by simp)]; simp [vertAbsMax]
    simp only [maxAbs, hz]
    exact foldl_vabs_zero (fun z hz => h z (by simp [hz]))

theorem normalize_faces (o : Obj) : (Obj.normalize o).faces = o.faces := by
  simp only [Obj.normalize]
  split <;> rfl

theorem normalize_eq_pos {o : Obj}
    (hpos : 0 < maxAbs (o.vertices.map (fun w =>
      vsub w (vdivs (vadd (compMax o.vertices) (compMin o.vertices)) 2)))) :
    (Obj.normalize o).vertices
      = (o.vertices.map (fun w =>
          vsub w (vdivs (vadd (compMax o.vertices) (compMin o.vertices)) 2))).map
        (fun w => vdivs w (maxAbs (o.vertices.map (fun w =>
          vsub w (vdivs (vadd (compMax o.vertices) (compMin o.vertices)) 2))))) := by
  simp only [Obj.normalize]
  rw [if_pos hpos]

theorem normalize_eq_nonpos {o : Obj}
    (hpos : ¬ 0 < maxAbs (o.vertices.map (fun w =>
      vsub w (vdivs (vadd (compMax o.vertices) (compMin o.vertices)) 2)))) :
    (Obj.normalize o).vertices
      = o.vertices.map (fun w =>
        vsub w (vdivs (vadd (compMax o.vertices) (compMin o.vertices)) 2)) := by
  simp only [Obj.normalize]
  rw [if_neg hpos]

theorem vsub_same (a : V3) : vsub a a = ((0, 0, 0) : V3) := by
  obtain ⟨x, y, z⟩ := a
  simp [vsub]

theorem vhalf (a : V3) : vdivs (vadd a a) 2 = a := by
  obtain ⟨x, y, z⟩ := a
  simp only [vadd, vdivs, Prod.mk.injEq]
  refine ⟨?_, ?_, ?_⟩ <;> ring

theorem center_sum_zero (mx mn : V3) (s : ℚ) :
    vadd (vdivs (vsub mx (vdivs (vadd mx mn) 2)) s)
      (vdivs (vsub mn (vdivs (vadd mx mn) 2)) s) = ((0, 0, 0) : V3) := by
  obtain ⟨a1, a2, a3⟩ := mx
  obtain ⟨b1, b2, b3⟩ := mn
  simp only [vadd, vsub, vdivs, Prod.mk.injEq]
  refine ⟨?_, ?_, ?_⟩
  · rw [div_add_div_same, show a1 - (a1 + b1) / 2 + (b1 - (a1 + b1) / 2) = 0 from by ring,
      zero_div]
  · rw [div_add_div_same, show a2 - (a2 + b2) / 2 + (b2 - (a2 + b2) / 2) = 0 from by ring,
      zero_div]
  · rw [div_add_div_same, show a3 - (a3 + b3) / 2 + (b3 - (a3 + b3) / 2) = 0 from by ring,
      zero_div]

theorem normalize_fixed {o' : Obj} (h1 : maxAbs o'.vertices = 1)
    (h0 : vadd (compMax o'.vertices) (compMin o'.vertices) = ((0, 0, 0) : V3)) :
    Obj.normalize o' = o' := by
  have hc : vdivs (vadd (compMax o'.vertices) (compMin o'.vertices)) 2
      = ((0, 0, 0) : V3) := by
    rw [h0]
    simp [vdivs]
  have hcent : o'.vertices.map (fun w =>
      vsub w (vdivs (vadd (compMax o'.vertices) (compMin o'.vertices)) 2))
      = o'.vertices := by
    rw [hc, List.map_congr_left (fun a _ => vsub_zero a), List.map_id']
  have hpos : 0 < maxAbs (o'.vertices.map (fun w =>
      vsub w (vdivs (vadd (compMax o'.vertices) (compMin o'.vertices)) 2))) := by
    rw [hcent, h1]
    norm_num
  apply Obj.ext
  · rw [normalize_eq_pos hpos, hcent, h1,
      List.map_congr_left (fun a _ => vdivs_one a), List.map_id']
  · exact normalize_faces o'

/-- C5: for a mesh with at least two distinct vertices, `normalize` makes
the largest absolute coordinate exactly 1 and moves the bounding-box
center to the origin, and a second `normalize` leaves the vertices
unchanged; if all vertices coincide the scaling step is skipped and the
mesh collapses to the origin by translation alone. -/
theorem normalize_spec (o : Obj) :
    (∀ u v : V3, u ∈ o.vertices → v ∈ o.vertices → u ≠ v →
      maxAbs (Obj.normalize o).vertices = 1 ∧
      vdivs (vadd (compMax (Obj.normalize o).vertices)
        (compMin (Obj.normalize o).vertices)) 2 = ((0, 0, 0) : V3) ∧
      Obj.normalize (Obj.normalize o) = Obj.normalize o) ∧
    (o.vertices ≠ [] → (∀ u ∈ o.vertices, ∀ v ∈ o.vertices, u = v) →
      (Obj.normalize o).vertices = o.vertices.map (fun _ => ((0, 0, 0) : V3))) := by
  constructor
  · intro u v hu hv huv
    have hne : o.vertices ≠ [] := by
      intro h
      rw [h] at hu
      cases hu
    have hpos := maxAbs_centered_pos hu hv huv
      (vdivs (vadd (compMax o.vertices) (compMin o.vertices)) 2)
    have hLne : o.vertices.map (fun w =>
        vsub w (vdivs (vadd (compMax o.vertices) (compMin o.vertices)) 2)) ≠ [] := by
      simpa using hne
    have hmax1 : maxAbs (Obj.normalize o).vertices = 1 := by
      rw [normalize_eq_pos hpos, maxAbs_map_div hpos, div_self (ne_of_gt hpos)]
    have hsum : vadd (compMax (Obj.normalize o).vertices)
        (compMin (Obj.normalize o).vertices) = ((0, 0, 0) : V3) := by
      rw [normalize_eq_pos hpos, compMax_map_div hLne (le_of_lt hpos),
        compMin_map_div hLne (le_of_lt hpos), compMax_map_sub hne, compMin_map_sub hne]
      exact center_sum_zero _ _ _
    refine ⟨hmax1, ?_, normalize_fixed hmax1 hsum⟩
    rw [hsum]
    simp [vdivs]
  · intro hne hall
    obtain ⟨vs, fs⟩ := o
    match vs, hne with
    | x :: xs, _ =>
      have hx : ∀ y ∈ (x :: xs : List V3), y = x := fun y hy => hall y hy x (by simp)
      have hmx : compMax (x :: xs) = x :=
        foldl_vmax_const (fun y hy => hx y (by simp [hy]))
      have hmn : compMin (x :: xs) = x :=
        foldl_vmin_const (fun y hy => hx y (by simp [hy]))
      have hcent : ((x :: xs : List V3)).map (fun w =>
          vsub w (vdivs (vadd (compMax (x :: xs)) (compMin (x :: xs))) 2))
          = (x :: xs : List V3).map (fun _ => ((0, 0, 0) : V3)) := by
        rw [hmx, hmn, vhalf]
        exact List.map_congr_left (fun a ha => by rw [hx a ha, vsub_same])
      have hscale : ¬ 0 < maxAbs (((x :: xs : List V3)).map (fun w =>
          vsub w (vdivs (vadd (compMax (x :: xs)) (compMin (x :: xs))) 2))) := by
        have hzero : ∀ y ∈ (x :: xs : List V3).map (fun _ => ((0, 0, 0) : V3)),
            y = ((0, 0, 0) : V3) := by
          intro y hy
          obtain ⟨a, -, ha⟩ := List.mem_map.mp hy
          exact ha.symm
        rw [hcent, maxAbs_const_zero hzero]
        exact lt_irrefl 0
      rw [normalize_eq_nonpos (o := ⟨x :: xs, fs⟩) hscale]
      exact hcent

/-- The wireframe renderer's vertex color `"#0000FF"` (`Renderer.py`). -/
def verticesColorW : String := "#0000FF"

/-- The wireframe renderer's edge color `"#0000FF"` (`Renderer.py`). -/
def edgesColorW : String := "#0000FF"

/-- The empty fill color `f_color=""` used for wireframe polygons. -/
def emptyColor : String := ""

/-- One drawing primitive issued to the GUI: `clear_canvas`,
`draw_canvas_point(x, y, v_color)` or
`draw_canvas_polygon(face_vertices, e_color, f_color)`. -/
inductive DrawCall
  | clear
  | point (x y : ℚ) (color : String)
  | polygon (pts : List ℚ) (edgeColor fillColor : String)
deriving DecidableEq

/-- Whether a draw call is a point draw. -/
def DrawCall.isPoint : DrawCall → Bool
  | .point _ _ _ => true
  | _ => false

/-- Whether a draw call is a polygon draw. -/
def DrawCall.isPolygon : DrawCall → Bool
  | .polygon _ _ _ => true
  | _ => false

/-- The numeric coordinates carried by one draw call. -/
def DrawCall.coords : DrawCall → List ℚ
  | .clear => []
  | .point x y _ => [x, y]
  | .polygon pts _ _ => pts

/-- Embeds `OrthographicProjector.project` on the triple-shaped vertex
matrix the renderers feed it (shape `Nx3` by construction, so the
assertions hold): keep X and Y, drop Z. -/
def orthoProjectV (vs : List V3) : List V2 :=
  vs.map (fun v => (v.1, v.2.1))

/-- Embeds the canvas pre-step shared by both renderers
(`Renderer.py`): `obj.vertices * np.min([w, h]) * 0.35 + np.array([w/2, h/2, 0])`
(the float literal `0.35` is the ideal `7/20` here). -/
def canvasVerts (o : Obj) (w h : ℚ) : List V3 :=
  o.vertices.map (fun v =>
    (v.1 * min w h * (7 / 20) + w / 2,
     v.2.1 * min w h * (7 / 20) + h / 2,
     v.2.2 * min w h * (7 / 20) + 0))

/-- Embeds the `face_vertices` accumulation of
`WireframeRenderer.render_object`: the flattened 2D coordinates of the
face's three vertex ids, in order. -/
def faceVertices2d (v2d : List V2) (f : Face) : List ℚ :=
  [(v2d.getD f.1 (0, 0)).1, (v2d.getD f.1 (0, 0)).2,
   (v2d.getD f.2.1 (0, 0)).1, (v2d.getD f.2.1 (0, 0)).2,
   (v2d.getD f.2.2 (0, 0)).1, (v2d.getD f.2.2 (0, 0)).2]

/-- Embeds `WireframeRenderer.render_object` (`Renderer.py`): scale the
vertices to the canvas (into a fresh local array, the object is not
written to), clear the canvas, project, draw one point per projected
vertex, then one outline polygon per face in stored face order. The
result pairs the object as the renderer leaves it with the ordered list
of issued draw calls. -/
def wireframeRender (o : Obj) (w h : ℚ) : Obj × List DrawCall :=
  let vertices := canvasVerts o w h
  let vertices2d := orthoProjectV vertices
  (o, DrawCall.clear
    :: (vertices2d.map (fun p => DrawCall.point p.1 p.2 verticesColorW)
      ++ o.faces.map (fun f =>
          DrawCall.polygon (faceVertices2d vertices2d f) edgesColorW emptyColor)))

/-- The unit cube mesh: 8 vertices at `±1`, 12 triangular faces. -/
def cubeObj : Obj :=
  { vertices :=
      [(-1, -1, -1), (-1, -1, 1), (-1, 1, -1), (-1, 1, 1),
       (1, -1, -1), (1, -1, 1), (1, 1, -1), (1, 1, 1)]
    faces :=
      [(0, 1, 3), (0, 3, 2), (4, 6, 7), (4, 7, 5), (0, 4, 5), (0, 5, 1),
       (2, 3, 7), (2, 7, 6), (0, 2, 6), (0, 6, 4), (1, 5, 7), (1, 7, 3)] }

unseal Rat.mul Rat.inv Rat.add Rat.sub in
/-- C7: a wireframe render first scales the vertices by
`0.35 * min(w, h)` and translates by `(w/2, h/2, 0)`, then issues one
clear, then exactly one point draw per vertex, then exactly one polygon
draw per face in the mesh's stored face order; on the unit cube over a
200x200 surface this is exactly 8 point draws and 12 polygon draws, all
coordinates lie in `[30, 170]`, and the point draws average to
`(100, 100)`. -/
theorem wireframeRender_spec :
    (∀ (o : Obj) (w h : ℚ),
      (wireframeRender o w h).2
        = DrawCall.clear
          :: ((orthoProjectV (canvasVerts o w h)).map
                (fun p => DrawCall.point p.1 p.2 verticesColorW)
            ++ o.faces.map (fun f => DrawCall.polygon
                (faceVertices2d (orthoProjectV (canvasVerts o w h)) f)
                edgesColorW emptyColor)) ∧
      ((wireframeRender o w h).2.filter DrawCall.isPoint).length = o.vertices.length ∧
      ((wireframeRender o w h).2.filter DrawCall.isPolygon).length = o.faces.length ∧
      ((wireframeRender o w h).2.filter DrawCall.isPolygon)
        = o.faces.map (fun f => DrawCall.polygon
            (faceVertices2d (orthoProjectV (canvasVerts o w h)) f)
            edgesColorW emptyColor)) ∧
    (((wireframeRender cubeObj 200 200).2.filter DrawCall.isPoint).length = 8 ∧
      ((wireframeRender cubeObj 200 200).2.filter DrawCall.isPolygon).length = 12 ∧
      (∀ call ∈ (wireframeRender cubeObj 200 200).2, ∀ q ∈ call.coords,
        30 ≤ q ∧ q ≤ 170) ∧
      (((wireframeRender cubeObj 200 200).2.filter DrawCall.isPoint).map
          (fun c => c.coords.getD 0 0)).sum = 8 * 100 ∧
      (((wireframeRender cubeObj 200 200).2.filter DrawCall.isPoint).map
          (fun c => c.coords.getD 1 0)).sum = 8 * 100) := by
  constructor
  · intro o w h
    refine ⟨rfl, ?_, ?_, ?_⟩
    · show ((DrawCall.clear :: (_ ++ _)).filter DrawCall.isPoint).length = _
      rw [List.filter_cons_of_neg (by decide), List.filter_append]
      rw [List.filter_map, List.filter_map]
      have h1 : (List.filter (DrawCall.isPoint ∘ fun p : V2 =>
          DrawCall.point p.1 p.2 verticesColorW) (orthoProjectV (canvasVerts o w h)))
          = orthoProjectV (canvasVerts o w h) :=
        List.filter_eq_self.mpr (fun a _ => rfl)
      have h2 : (List.filter (DrawCall.isPoint ∘ fun f : Face => DrawCall.polygon
          (faceVertices2d (orthoProjectV (canvasVerts o w h)) f) edgesColorW emptyColor)
          o.faces) = [] :=
        List.filter_eq_nil_iff.mpr (fun a _ => by simp [DrawCall.isPoint, Function.comp])
      rw [h1, h2]
      simp [orthoProjectV, canvasVerts]
    · show ((DrawCall.clear :: (_ ++ _)).filter DrawCall.isPolygon).length = _
      rw [List.filter_cons_of_neg (by decide), List.filter_append]
      rw [List.filter_map, List.filter_map]
      have h1 : (List.filter (DrawCall.isPolygon ∘ fun p : V2 =>
          DrawCall.point p.1 p.2 verticesColorW) (orthoProjectV (canvasVerts o w h)))
          = [] :=
        List.filter_eq_nil_iff.mpr (fun a _ => by simp [DrawCall.isPolygon, Function.comp])
      have h2 : (List.filter (DrawCall.isPolygon ∘ fun f : Face => DrawCall.polygon
          (faceVertices2d (orthoProjectV (canvasVerts o w h)) f) edgesColorW emptyColor)
          o.faces) = o.faces :=
        List.filter_eq_self.mpr (fun a _ => rfl)
      rw [h1, h2]
      simp
    · show (DrawCall.clear :: (_ ++ _)).filter DrawCall.isPolygon = _
      rw [List.filter_cons_of_neg (by decide), List.filter_append]
      rw [List.filter_map, List.filter_map]
      have h1 : (List.filter (DrawCall.isPolygon ∘ fun p : V2 =>
          DrawCall.point p.1 p.2 verticesColorW) (orthoProjectV (canvasVerts o w h)))
          = [] :=
        List.filter_eq_nil_iff.mpr (fun a _ => by simp [DrawCall.isPolygon, Function.comp])
      have h2 : (List.filter (DrawCall.isPolygon ∘ fun f : Face => DrawCall.polygon
          (faceVertices2d (orthoProjectV (canvasVerts o w h)) f) edgesColorW emptyColor)
          o.faces) = o.faces :=
        List.filter_eq_self.mpr (fun a _ => rfl)
      rw [h1, h2]
      simp
  · exact ⟨by decide, by decide, by decide, by decide, by decide⟩

/-- C10: `WireframeRenderer.render_object` leaves the mesh unchanged:
the canvas scaling writes a fresh local array and the face list is only
iterated, so the returned object state has the same vertices and the
same faces as the argument. -/
theorem wireframeRender_frame (o : Obj) (w h : ℚ) :
    (wireframeRender o w h).1 = o ∧
    (wireframeRender o w h).1.vertices = o.vertices ∧
    (wireframeRender o w h).1.faces = o.faces :=
  ⟨rfl, rfl, rfl⟩

/-- The standard rotation about the Z axis by `a` (column-vector
convention), the `Rz(yaw)` of the spec. -/
noncomputable def Rz (a : ℝ) : Matrix (Fin 3) (Fin 3) ℝ :=
  !![Real.cos a, -Real.sin a, 0;
     Real.sin a, Real.cos a, 0;
     0, 0, 1]

/-- The standard rotation about the Y axis by `b`, the `Ry(pitch)` of the
spec. -/
noncomputable def Ry (b : ℝ) : Matrix (Fin 3) (Fin 3) ℝ :=
  !![Real.cos b, 0, Real.sin b;
     0, 1, 0;
     -Real.sin b, 0, Real.cos b]

/-- The standard rotation about the X axis by `r`, the `Rx(roll)` of the
spec. -/
noncomputable def Rx (r : ℝ) : Matrix (Fin 3) (Fin 3) ℝ :=
  !![1, 0, 0;
     0, Real.cos r, -Real.sin r;
     0, Real.sin r, Real.cos r]

/-- Embeds the `rot_mat` array literal of `Object.rotate` (`Object.py`),
entry by entry, with `a = yaw`, `b = pitch`, `r = roll`. -/
noncomputable def rotMat (a b r : ℝ) : Matrix (Fin 3) (Fin 3) ℝ :=
  !![Real.cos a * Real.cos b,
     Real.cos a * Real.sin b * Real.sin r - Real.sin a * Real.cos r,
     Real.cos a * Real.sin b * Real.cos r + Real.sin a * Real.sin r;
     Real.sin a * Real.cos b,
     Real.sin a * Real.sin b * Real.sin r + Real.cos a * Real.cos r,
     Real.sin a * Real.sin b * Real.cos r - Real.cos a * Real.sin r;
     -Real.sin b, Real.cos b * Real.sin r, Real.cos b * Real.cos r]

/-- Embeds `Object.rotate` (`Object.py`): every vertex row is
right-multiplied by `rot_mat` (`self.vertices @ rot_mat`). Python floats
are modelled as exact reals. -/
noncomputable def rotate (vs : List (Fin 3 → ℝ)) (yaw pitch roll : ℝ) : List (Fin 3 → ℝ) :=
  vs.map (fun v => Matrix.vecMul v (rotMat yaw pitch roll))

theorem rotMat_eq_RzRyRx (a b r : ℝ) : rotMat a b r = Rz a * Ry b * Rx r := by
  rw [rotMat, Rz, Ry, Rx, Matrix.mul_fin_three, Matrix.mul_fin_three]
  refine congrArg Matrix.of (Matrix.vec3_eq (Matrix.vec3_eq ?_ ?_ ?_)
    (Matrix.vec3_eq ?_ ?_ ?_) (Matrix.vec3_eq ?_ ?_ ?_)) <;> ring

theorem Rz_mul_transpose (a : ℝ) : Rz a * (Rz a).transpose = 1 := by
  have ht : (Rz a).transpose = !![Real.cos a, Real.sin a, 0;
      -Real.sin a, Real.cos a, 0; 0, 0, 1] := by
    rw [Rz]
    ext i j
    fin_cases i <;> fin_cases j <;> rfl
  rw [ht, Rz, Matrix.mul_fin_three, Matrix.one_fin_three]
  refine congrArg Matrix.of (Matrix.vec3_eq (Matrix.vec3_eq ?_ ?_ ?_)
    (Matrix.vec3_eq ?_ ?_ ?_) (Matrix.vec3_eq ?_ ?_ ?_)) <;>
    first
      | linear_combination Real.sin_sq_add_cos_sq a
      | ring

theorem Ry_mul_transpose (b : ℝ) : Ry b * (Ry b).transpose = 1 := by
  have ht : (Ry b).transpose = !![Real.cos b, 0, -Real.sin b;
      0, 1, 0; Real.sin b, 0, Real.cos b] := by
    rw [Ry]
    ext i j
    fin_cases i <;> fin_cases j <;> rfl
  rw [ht, Ry, Matrix.mul_fin_three, Matrix.one_fin_three]
  refine congrArg Matrix.of (Matrix.vec3_eq (Matrix.vec3_eq ?_ ?_ ?_)
    (Matrix.vec3_eq ?_ ?_ ?_) (Matrix.vec3_eq ?_ ?_ ?_)) <;>
    first
      | linear_combination Real.sin_sq_add_cos_sq b
      | ring

theorem Rx_mul_transpose (r : ℝ) : Rx r * (Rx r).transpose = 1 := by
  have ht : (Rx r).transpose = !![1, 0, 0;
      0, Real.cos r, Real.sin r; 0, -Real.sin r, Real.cos r] := by
    rw [Rx]
    ext i j
    fin_cases i <;> fin_cases j <;> rfl
  rw [ht, Rx, Matrix.mul_fin_three, Matrix.one_fin_three]
  refine congrArg Matrix.of (Matrix.vec3_eq (Matrix.vec3_eq ?_ ?_ ?_)
    (Matrix.vec3_eq ?_ ?_ ?_) (Matrix.vec3_eq ?_ ?_ ?_)) <;>
    first
      | linear_combination Real.sin_sq_add_cos_sq r
      | ring

theorem rotMat_mul_transpose (a b r : ℝ) :
    rotMat a b r * (rotMat a b r).transpose = 1 := by
  rw [rotMat_eq_RzRyRx, Matrix.transpose_mul, Matrix.transpose_mul]
  calc Rz a * Ry b * Rx r * ((Rx r).transpose * ((Ry b).transpose * (Rz a).transpose))
      = Rz a * Ry b * (Rx r * (Rx r).transpose) * ((Ry b).transpose * (Rz a).transpose) := by
        simp only [Matrix.mul_assoc]
    _ = Rz a * (Ry b * (Ry b).transpose) * (Rz a).transpose := by
        rw [Rx_mul_transpose, Matrix.mul_one]
        simp only [Matrix.mul_assoc]
    _ = Rz a * (Rz a).transpose := by rw [Ry_mul_transpose, Matrix.mul_one]
    _ = 1 := Rz_mul_transpose a

theorem vecMul_dot_self {M : Matrix (Fin 3) (Fin 3) ℝ} (hM : M * M.transpose = 1)
    (w : Fin 3 → ℝ) :
    Matrix.dotProduct (Matrix.vecMul w M) (Matrix.vecMul w M)
      = Matrix.dotProduct w w := by
  have h1 : Matrix.vecMul w M = Matrix.mulVec M.transpose w :=
    (Matrix.mulVec_transpose M w).symm
  rw [h1, Matrix.dotProduct_mulVec, Matrix.vecMul_transpose, Matrix.mulVec_mulVec,
    hM, Matrix.one_mulVec]

theorem rotMat_zero : rotMat 0 0 0 = 1 := by
  rw [rotMat, Matrix.one_fin_three]
  refine congrArg Matrix.of (Matrix.vec3_eq (Matrix.vec3_eq ?_ ?_ ?_)
    (Matrix.vec3_eq ?_ ?_ ?_) (Matrix.vec3_eq ?_ ?_ ?_)) <;>
    simp [Real.cos_zero, Real.sin_zero]

/-- C4: `rotate` right-multiplies every vertex row by the single matrix
`Rz(yaw) * Ry(pitch) * Rx(roll)`; rotation by all-zero angles is the
identity, the rotation matrix is orthogonal so pairwise (squared)
distances between vertices are preserved exactly, and rotating by angles
`A` then `B` equals one right-multiplication by the product of the two
matrices — which differs from the matrix of the summed angles. -/
theorem rotate_spec :
    (∀ a b r : ℝ, rotMat a b r = Rz a * Ry b * Rx r) ∧
    (∀ vs : List (Fin 3 → ℝ), rotate vs 0 0 0 = vs) ∧
    (∀ (a b r : ℝ) (u v : Fin 3 → ℝ),
      Matrix.dotProduct (Matrix.vecMul u (rotMat a b r) - Matrix.vecMul v (rotMat a b r))
        (Matrix.vecMul u (rotMat a b r) - Matrix.vecMul v (rotMat a b r))
        = Matrix.dotProduct (u - v) (u - v)) ∧
    (∀ (vs : List (Fin 3 → ℝ)) (a1 b1 r1 a2 b2 r2 : ℝ),
      rotate (rotate vs a1 b1 r1) a2 b2 r2
        = vs.map (fun v => Matrix.vecMul v (rotMat a1 b1 r1 * rotMat a2 b2 r2))) ∧
    (rotMat 0 (Real.pi / 2) 0 * rotMat (Real.pi / 2) 0 0
      ≠ rotMat (Real.pi / 2) (Real.pi / 2) 0) := by
  refine ⟨rotMat_eq_RzRyRx, ?_, ?_, ?_, ?_⟩
  · intro vs
    rw [rotate, rotMat_zero]
    rw [List.map_congr_left (fun v _ => Matrix.vecMul_one v), List.map_id']
  · intro a b r u v
    rw [← Matrix.sub_vecMul]
    exact vecMul_dot_self (rotMat_mul_transpose a b r) (u - v)
  · intro vs a1 b1 r1 a2 b2 r2
    simp only [rotate, List.map_map]
    exact List.map_congr_left (fun v _ => by
      simp [Function.comp, Matrix.vecMul_vecMul])
  · intro h
    have h02 := congrFun (congrFun h 0) 2
    rw [rotMat, rotMat, rotMat, Matrix.mul_fin_three] at h02
    simp only [Real.cos_pi_div_two, Real.sin_pi_div_two, Real.cos_zero, Real.sin_zero,
      Matrix.cons_val', Matrix.cons_val_zero, Matrix.cons_val_one, Matrix.head_cons,
      Matrix.empty_val', Matrix.cons_val_fin_one, Matrix.head_fin_const,
      Matrix.of_apply] at h02
    norm_num at h02

/-- Embeds `np.cross` on two rows (`Renderer.py`, `N = np.cross(U, V)`). -/
def cross (u v : V3) : V3 :=
  (u.2.1 * v.2.2 - u.2.2 * v.2.1,
   u.2.2 * v.1 - u.1 * v.2.2,
   u.1 * v.2.1 - u.2.1 * v.1)

/-- Embeds the per-face shading of `FlatShadedRenderer.render_object`
(`Renderer.py`): `U = P2 - P1`, `V = P3 - P1`, `N = np.cross(U, V)`,
`N /= np.linalg.norm(N)`, `alpha = np.abs(N[2])`. The Euclidean norm is
zero exactly when `N` is the zero vector, and NumPy's division of the
zero vector by `0.0` produces NaN components, so the NaN alpha is
embedded as `none`; otherwise the alpha is the real `|N_z| / ‖N‖`. -/
noncomputable def faceAlpha (P1 P2 P3 : V3) : Option ℝ :=
  let U := vsub P2 P1
  let V := vsub P3 P1
  let N := cross U V
  if N = ((0, 0, 0) : V3) then none
  else some (|(N.2.2 : ℝ)|
    / Real.sqrt ((N.1 : ℝ) ^ 2 + (N.2.1 : ℝ) ^ 2 + (N.2.2 : ℝ) ^ 2))

/-- C1 (the code at the failing input): at the degenerate face with two
identical vertices `P1 = P2 = (0, 0, 0)`, `P3 = (1, 0, 0)` the cross
product is zero and the shading alpha is NaN (`none`), not a defined
value — and the same holds for every face whose edge vectors have a zero
cross product. The NaN then reaches `int(x)` inside `_color_fader`,
which raises `ValueError`, so the render crashes instead of using a
fallback alpha. -/
theorem faceAlpha_degenerate_none :
    faceAlpha (0, 0, 0) (0, 0, 0) (1, 0, 0) = none ∧
    ∀ P1 P2 P3 : V3, cross (vsub P2 P1) (vsub P3 P1) = ((0, 0, 0) : V3) →
      faceAlpha P1 P2 P3 = none := by
  constructor
  · simp [faceAlpha, cross, vsub]
  · intro P1 P2 P3 h
    simp [faceAlpha, h]

unseal Rat.mul Rat.sub in
/-- Witness for C1 at a second concrete degenerate face. -/
theorem faceAlpha_degenerate_none_witness :
    faceAlpha (1, 2, 3) (1, 2, 3) (4, 5, 6) = none :=
  faceAlpha_degenerate_none.2 (1, 2, 3) (1, 2, 3) (4, 5, 6) (by decide)

/-- Witness for C5 at concrete meshes: a two-vertex mesh normalizes to
max coordinate 1 and is a fixed point of a second `normalize`; a mesh of
two equal vertices collapses to the origin with the scaling skipped. -/
theorem normalize_spec_witness :
    maxAbs (Obj.normalize ⟨[(1, 1, 1), (-1, -1, -1)], []⟩).vertices = 1 ∧
    Obj.normalize (Obj.normalize ⟨[(1, 1, 1), (-1, -1, -1)], []⟩)
      = Obj.normalize ⟨[(1, 1, 1), (-1, -1, -1)], []⟩ ∧
    (Obj.normalize ⟨[(2, 3, 4), (2, 3, 4)], []⟩).vertices
      = [((0, 0, 0) : V3), (0, 0, 0)] := by
  have h1 := (normalize_spec ⟨[(1, 1, 1), (-1, -1, -1)], []⟩).1 (1, 1, 1) (-1, -1, -1)
    (by simp) (by simp) (by decide)
  have h2 := (normalize_spec ⟨[(2, 3, 4), (2, 3, 4)], []⟩).2 (by simp) (by decide)
  refine ⟨h1.1, h1.2.2, ?_⟩
  rw [h2]
  rfl
